import Mathlib

/-!
Verification of the `VariationalAutoEncoder` core from
`BrainSimulator/models/vae.py` (discrete-latent VAE): the shape planner,
the zero-padding / unpadding algebra, the softmax label smoothing of the
categorical latent distributions, the categorical sampler contract, and the
shape round trip of `encode`/`decode`/`forward`.

Tensors are modelled as nested lists of reals; the shape planner is pure
natural-number arithmetic (`np.ceil(h / 64) * 64` on integral `h` is exact in
binary floating point, since 64 is a power of two, so it equals the natural
ceiling division `((h + 63) / 64) * 64`).
-/

namespace BrainSimulator

/-- Down/Upsampling factors, `self.scalings = [8, 4, 2]` in `__init__`. -/
def scalings : List Nat := [8, 4, 2]

/-- `total_scaling = int(np.prod(self.scalings))`. -/
def total_scaling : Nat := scalings.prod

/-- All integer attributes stored on the model object by `__init__`
(the shape plan and the latent configuration). -/
structure VAE where
  image_height : Nat
  image_width : Nat
  n_distributions : Nat
  n_categories : Nat
  latent_size : Nat
  padded_height : Nat
  padded_width : Nat
  pad_height : Nat
  pad_width : Nat
  pad_top : Nat
  pad_bottom : Nat
  pad_left : Nat
  pad_right : Nat
  latent_channels_size : Nat
  post_cnn_height : Nat
  post_cnn_width : Nat
  post_cnn_encoder_size : Nat
deriving DecidableEq, Repr

/-- `VariationalAutoEncoder.__init__`: computes the shape plan.
`int(np.ceil(d / total_scaling) * total_scaling)` is embedded as the exact
ceiling division `((d + total_scaling - 1) / total_scaling) * total_scaling`. -/
def initVAE (image_height image_width n_distributions n_categories : Nat) : VAE :=
  let ts := total_scaling
  let padded_height := ((image_height + (ts - 1)) / ts) * ts
  let padded_width := ((image_width + (ts - 1)) / ts) * ts
  let pad_height := padded_height - image_height
  let pad_width := padded_width - image_width
  let pad_top := pad_height / 2
  let pad_bottom := pad_height - pad_top
  let pad_left := pad_width / 2
  let pad_right := pad_width - pad_left
  let latent_channels_size := n_distributions
  let post_cnn_height := padded_height / ts
  let post_cnn_width := padded_width / ts
  { image_height := image_height
    image_width := image_width
    n_distributions := n_distributions
    n_categories := n_categories
    latent_size := n_distributions * n_categories
    padded_height := padded_height
    padded_width := padded_width
    pad_height := pad_height
    pad_width := pad_width
    pad_top := pad_top
    pad_bottom := pad_bottom
    pad_left := pad_left
    pad_right := pad_right
    latent_channels_size := latent_channels_size
    post_cnn_height := post_cnn_height
    post_cnn_width := post_cnn_width
    post_cnn_encoder_size := post_cnn_height * post_cnn_width * latent_channels_size }

/-- Rank-4 tensors `(batch, channel, rows, columns)` as nested lists of reals. -/
abbrev Tensor4 := List (List (List (List ℝ)))

/-- Pads one row with `pad_left` zeros on the left and `pad_right` zeros on the
right (the last-dimension part of `F.pad`). -/
def padRow (pl pr : Nat) (r : List ℝ) : List ℝ :=
  List.replicate pl 0 ++ r ++ List.replicate pr 0

/-- Pads one 2-D slice: `pad_top` all-zero rows above, `pad_bottom` below, and
each interior row padded left/right. `w` is the construction-time image width,
so the zero rows have the padded width `pl + w + pr`. -/
def padGrid (pt pb pl pr w : Nat) (rows : List (List ℝ)) : List (List ℝ) :=
  List.replicate pt (List.replicate (pl + w + pr) 0) ++
    rows.map (padRow pl pr) ++
      List.replicate pb (List.replicate (pl + w + pr) 0)

/-- `VariationalAutoEncoder.pad_input`:
`F.pad(x, (pad_left, pad_right, pad_top, pad_bottom), mode='constant', value=0)`,
acting on the last two dimensions of the rank-4 tensor. -/
def pad_input (m : VAE) (x : Tensor4) : Tensor4 :=
  x.map (List.map (padGrid m.pad_top m.pad_bottom m.pad_left m.pad_right m.image_width))

/-- Python slice `xs[a:-b]` (used with `b > 0`): drop the first `a` and the last
`b` elements. -/
def sliceLowHigh {α : Type} (a b : Nat) (xs : List α) : List α :=
  (xs.take (xs.length - b)).drop a

/-- One axis of `unpad_output`:
`if a + b > 0: xs = xs[a:-b] if b > 0 else xs[a:]` (else leave `xs` alone). -/
def unpadAxis {α : Type} (a b : Nat) (xs : List α) : List α :=
  if 0 < a + b then (if 0 < b then sliceLowHigh a b xs else xs.drop a) else xs

/-- `VariationalAutoEncoder.unpad_output`: slice rows (dimension 2) by
`pad_top`/`pad_bottom`, then columns (dimension 3) by `pad_left`/`pad_right`. -/
def unpad_output (m : VAE) (x : Tensor4) : Tensor4 :=
  (x.map (List.map (unpadAxis m.pad_top m.pad_bottom))).map
    (List.map (List.map (unpadAxis m.pad_left m.pad_right)))

/-- One row of `self.softmax_act = nn.Softmax(dim=1)` applied to the
`(batch * n_distributions, n_categories)` logits matrix. -/
noncomputable def softmaxRow (l : List ℝ) : List ℝ :=
  l.map (fun x => Real.exp x / (l.map Real.exp).sum)

/-- `nn.Softmax(dim=1)` on a rank-2 tensor: softmax of every row. -/
noncomputable def softmax_act (x : List (List ℝ)) : List (List ℝ) :=
  x.map softmaxRow

/-- The smoothing step of `encode`:
`distributions = 0.99 * distributions + 0.01 * torch.ones_like(distributions) / self.n_categories`. -/
noncomputable def smoothDistributions (nc : Nat) (d : List (List ℝ)) : List (List ℝ) :=
  d.map (List.map (fun p => 0.99 * p + 0.01 * 1 / (nc : ℝ)))

/-- Lines 90-92 of `encode`: softmax over the category axis followed by the
`0.99 / 0.01`-uniform smoothing. -/
noncomputable def encodeDistributions (nc : Nat) (logits : List (List ℝ)) : List (List ℝ) :=
  smoothDistributions nc (softmax_act logits)

/-- Modelled from the spec: the hot-index choice of `STMNsampler`
(`BrainSimulator/custom_functions/utils.py`, not under `src/`). The spec asks
for a hard categorical draw whose index is drawn proportionally to the row's
probabilities; this is the inverse-CDF draw at an external uniform random value
`u`: the first index `k` with `p_0 + ... + p_k > u`. -/
noncomputable def categoricalIndex : ℝ → List ℝ → Nat
  | _, [] => 0
  | u, q :: rest => if u < q then 0 else categoricalIndex (u - q) rest + 1

/-- One-hot vector of length `n` with hot index `k`. -/
def oneHot (n k : Nat) : List ℝ :=
  (List.range n).map (fun i => if i = k then (1:ℝ) else 0)

/-- Modelled from the spec: the forward value of `STMNsampler` on one
probability row, a hard one-hot vector at the categorically drawn index. -/
noncomputable def STMNsamplerRow (u : ℝ) (p : List ℝ) : List ℝ :=
  oneHot p.length (categoricalIndex u p)

/-- Modelled from the spec: `STMNsampler` applied to the
`(batch * n_distributions, n_categories)` matrix of smoothed rows, one external
uniform random value per row. -/
noncomputable def STMNsampler (us : List ℝ) (d : List (List ℝ)) : List (List ℝ) :=
  List.zipWith STMNsamplerRow us d

/-- `torch.Tensor.view (rows, cols)` on a flat vector: row `i` is the `cols`
entries starting at `i * cols`. -/
def chunkInto (rows cols : Nat) (v : List ℝ) : List (List ℝ) :=
  (List.range rows).map (fun i => (v.drop (i * cols)).take cols)

/-- `pad_input` in state-passing form: the method reads `self` and never writes
a field, so it returns the model unchanged. -/
def pad_inputM (m : VAE) (x : Tensor4) : Tensor4 × VAE :=
  (pad_input m x, m)

/-- `unpad_output` in state-passing form. -/
def unpad_outputM (m : VAE) (x : Tensor4) : Tensor4 × VAE :=
  (unpad_output m x, m)

/-- `encode` in state-passing form. The learned sub-networks (`self.encoder`)
and the sampler's randomness are black-box parameters; the integer shape plan
is the threaded state. Mirrors the source: pad, run the encoder, reshape to
`(batch * n_distributions, n_categories)`, softmax + smooth, sample, reshape
both results back to `(batch, n_distributions * n_categories)`. -/
noncomputable def encodeM (m : VAE) (encoderNet : Tensor4 → List (List ℝ))
    (samplerNoise : List ℝ) (x : Tensor4) :
    (List (List ℝ) × List (List ℝ)) × VAE :=
  let batch_dim := x.length
  let px := pad_inputM m x
  let feats := encoderNet px.1
  let logits := (feats.map (chunkInto px.2.n_distributions px.2.n_categories)).flatten
  let distributions := encodeDistributions px.2.n_categories logits
  let sample := STMNsampler samplerNoise distributions
  let sampleV := chunkInto batch_dim (px.2.n_distributions * px.2.n_categories) sample.flatten
  let distV := chunkInto batch_dim (px.2.n_distributions * px.2.n_categories) distributions.flatten
  ((sampleV, distV), px.2)

/-- `decode` in state-passing form: run the decoder network, then unpad. -/
noncomputable def decodeM (m : VAE) (decoderNet : List (List ℝ) → Tensor4)
    (z : List (List ℝ)) : Tensor4 × VAE :=
  let x := decoderNet z
  unpad_outputM m x

/-- `forward` in state-passing form: encode, decode the sample, return all
three results. -/
noncomputable def forwardM (m : VAE) (encoderNet : Tensor4 → List (List ℝ))
    (samplerNoise : List ℝ) (decoderNet : List (List ℝ) → Tensor4) (x : Tensor4) :
    (Tensor4 × List (List ℝ) × List (List ℝ)) × VAE :=
  let e := encodeM m encoderNet samplerNoise x
  let d := decodeM e.2 decoderNet e.1.1
  ((d.1, e.1.1, e.1.2), d.2)

/-- Tensor shapes `(batch, channels, height, width)`, for the black-box shape
contracts of the convolutional stages. -/
structure Shape4 where
  batch : Nat
  channels : Nat
  height : Nat
  width : Nat
deriving DecidableEq, Repr

/-- Shape contract of `CNNLayer(in, out, 3)`: channels become `out`, spatial
size is preserved. -/
def cnnLayerShape (outChannels : Nat) (s : Shape4) : Shape4 :=
  { s with channels := outChannels }

/-- Shape contract of `nn.MaxPool2d(k, stride=k)`: spatial size divided by `k`. -/
def maxPool2dShape (k : Nat) (s : Shape4) : Shape4 :=
  { s with height := s.height / k, width := s.width / k }

/-- Shape contract of `nn.Flatten()`. -/
def flattenShape (s : Shape4) : Nat × Nat :=
  (s.batch, s.channels * s.height * s.width)

/-- Shape contract of `MLP(3, inDim, hidden, outDim)`: output dimension
`outDim`, batch preserved. -/
def mlpShape (outDim : Nat) (v : Nat × Nat) : Nat × Nat :=
  (v.1, outDim)

/-- Shape of `pad_input`: each spatial dimension grows by its two pads. -/
def pad_inputShape (m : VAE) (s : Shape4) : Shape4 :=
  { s with height := m.pad_top + s.height + m.pad_bottom,
           width := m.pad_left + s.width + m.pad_right }

/-- Shape of `self.encoder`: three conv+pool stages with scalings `[8, 4, 2]`,
flatten, and the final MLP to `n_distributions * n_categories` logits. -/
def encoderShape (m : VAE) (s : Shape4) : Nat × Nat :=
  mlpShape (m.n_distributions * m.n_categories)
    (flattenShape
      (maxPool2dShape 2
        (cnnLayerShape m.latent_channels_size
          (maxPool2dShape 4
            (cnnLayerShape 256
              (maxPool2dShape 8 (cnnLayerShape 64 s)))))))

/-- Shape contract of `torch.Tensor.view(rows, cols)`. -/
def viewShape (rows cols : Nat) (v : Nat × Nat) : Nat × Nat :=
  (rows, cols)

/-- Shape contract of `STMNsampler`: same shape out as in. -/
def samplerShape (v : Nat × Nat) : Nat × Nat := v

/-- Shape of `encode`: pad, encoder, view to
`(batch * n_distributions, n_categories)`, sample, view both back to
`(batch, n_distributions * n_categories)`. Returns (sample shape,
distribution shape). -/
def encodeShape (m : VAE) (s : Shape4) : (Nat × Nat) × (Nat × Nat) :=
  let batch_dim := s.batch
  let logits := encoderShape m (pad_inputShape m s)
  let dist := viewShape (batch_dim * m.n_distributions) m.n_categories logits
  let sample := samplerShape dist
  (viewShape batch_dim (m.n_distributions * m.n_categories) sample,
   viewShape batch_dim (m.n_distributions * m.n_categories) dist)

/-- Shape contract of `DeCNNLayer(in, out, kernel_size=k, stride=k, padding=0)`:
channels become `out`, spatial size multiplied by `k`. -/
def deCNNLayerShape (outChannels k : Nat) (s : Shape4) : Shape4 :=
  { s with channels := outChannels, height := s.height * k, width := s.width * k }

/-- Shape contract of
`nn.Unflatten(1, (latent_channels_size, post_cnn_height, post_cnn_width))`. -/
def unflattenShape (m : VAE) (v : Nat × Nat) : Shape4 :=
  ⟨v.1, m.latent_channels_size, m.post_cnn_height, m.post_cnn_width⟩

/-- Shape of `self.decoder`: MLP to the flattened grid size, unflatten, three
transpose-conv stages with scalings `[2, 4, 8]` ending at one channel
(the final Sigmoid preserves shape). -/
def decoderShape (m : VAE) (v : Nat × Nat) : Shape4 :=
  deCNNLayerShape 1 8
    (deCNNLayerShape 64 4
      (deCNNLayerShape 256 2
        (unflattenShape m (mlpShape m.post_cnn_encoder_size v))))

/-- Shape of `unpad_output`: each spatial dimension shrinks by its two pads. -/
def unpad_outputShape (m : VAE) (s : Shape4) : Shape4 :=
  { s with height := s.height - (m.pad_top + m.pad_bottom),
           width := s.width - (m.pad_left + m.pad_right) }

/-- Shape of `decode`. -/
def decodeShape (m : VAE) (v : Nat × Nat) : Shape4 :=
  unpad_outputShape m (decoderShape m v)

/-- Shape of `forward`: (reconstruction shape, sample shape, distribution
shape). -/
def forwardShape (m : VAE) (s : Shape4) : Shape4 × (Nat × Nat) × (Nat × Nat) :=
  let sd := encodeShape m s
  (decodeShape m sd.1, sd.1, sd.2)

lemma total_scaling_eq : total_scaling = 64 := rfl

lemma unpadAxis_pad {α : Type} (a b : Nat) (z : α) (mid : List α) :
    unpadAxis a b (List.replicate a z ++ mid ++ List.replicate b z) = mid := by
  rcases Nat.eq_zero_or_pos b with hb | hb
  · subst hb
    rcases Nat.eq_zero_or_pos a with ha | ha
    · subst ha
      simp [unpadAxis]
    · unfold unpadAxis
      rw [if_pos (by omega : 0 < a + 0), if_neg (lt_irrefl 0)]
      simp only [List.replicate_zero, List.append_nil]
      exact List.drop_left' (by simp)
  · unfold unpadAxis
    rw [if_pos (by omega : 0 < a + b), if_pos hb]
    unfold sliceLowHigh
    have hlen : (List.replicate a z ++ mid ++ List.replicate b z).length
        = (a + mid.length) + b := by simp; omega
    rw [hlen]
    have hsub : (a + mid.length) + b - b = a + mid.length := by omega
    rw [hsub, List.take_left' (by simp)]
    exact List.drop_left' (by simp)

lemma unpad_pad_grid (pt pb pl pr w : Nat) (g : List (List ℝ)) :
    (unpadAxis pt pb (padGrid pt pb pl pr w g)).map (unpadAxis pl pr) = g := by
  unfold padGrid
  rw [unpadAxis_pad, List.map_map]
  have hrow : ∀ r : List ℝ, unpadAxis pl pr (padRow pl pr r) = r := by
    intro r
    exact unpadAxis_pad pl pr 0 r
  simp [Function.comp_def, hrow]

lemma unpadAxis_eq_slice {α : Type} (a b : Nat) (hab : 0 < a + b → 0 < b)
    (xs : List α) :
    unpadAxis a b xs = if 0 < a + b then sliceLowHigh a b xs else xs := by
  unfold unpadAxis
  by_cases hc : 0 < a + b
  · rw [if_pos hc, if_pos hc, if_pos (hab hc)]
  · rw [if_neg hc, if_neg hc]

lemma exp_sum_pos (l : List ℝ) (hl : l ≠ []) : 0 < (l.map Real.exp).sum := by
  refine List.sum_pos _ (fun x hx => ?_) (by simpa using hl)
  obtain ⟨y, _, rfl⟩ := List.mem_map.mp hx
  exact Real.exp_pos y

lemma sum_map_div_const (l : List ℝ) (c : ℝ) :
    (l.map (fun x => Real.exp x / c)).sum = (l.map Real.exp).sum / c := by
  induction l with
  | nil => simp
  | cons x xs ih => simp only [List.map_cons, List.sum_cons, ih, add_div]

lemma softmaxRow_sum (l : List ℝ) (hl : l ≠ []) : (softmaxRow l).sum = 1 := by
  unfold softmaxRow
  rw [sum_map_div_const]
  exact div_self (ne_of_gt (exp_sum_pos l hl))

lemma softmaxRow_bounds (l : List ℝ) (hl : l ≠ []) :
    ∀ p ∈ softmaxRow l, 0 ≤ p ∧ p ≤ 1 := by
  intro p hp
  obtain ⟨x, hx, rfl⟩ := List.mem_map.mp hp
  have hS := exp_sum_pos l hl
  refine ⟨by positivity, ?_⟩
  rw [div_le_one hS]
  refine List.single_le_sum (fun y hy => ?_) _ (List.mem_map_of_mem Real.exp hx)
  obtain ⟨z, _, rfl⟩ := List.mem_map.mp hy
  exact (Real.exp_pos z).le

lemma sum_map_affine (a c : ℝ) (l : List ℝ) :
    (l.map (fun x => a * x + c)).sum = a * l.sum + l.length * c := by
  induction l with
  | nil => simp
  | cons x xs ih =>
    simp only [List.map_cons, List.sum_cons, List.length_cons, ih]
    push_cast
    ring

lemma oneHot_length (n k : Nat) : (oneHot n k).length = n := by
  simp [oneHot]

lemma oneHot_getD (n k j : Nat) (h : j < n) :
    (oneHot n k).getD j 0 = if j = k then 1 else 0 := by
  have hj : j < (oneHot n k).length := by simpa [oneHot_length] using h
  rw [List.getD_eq_getElem _ _ hj]
  simp [oneHot]

lemma categoricalIndex_mem_interval (p : List ℝ) (u : ℝ)
    (hpos : ∀ q ∈ p, 0 ≤ q) (hu0 : 0 ≤ u) (hus : u < p.sum) :
    categoricalIndex u p < p.length ∧
      (p.take (categoricalIndex u p)).sum ≤ u ∧
      u < (p.take (categoricalIndex u p + 1)).sum := by
  induction p generalizing u with
  | nil =>
    simp only [List.sum_nil] at hus
    linarith
  | cons q rest ih =>
    by_cases hq : u < q
    · simp only [categoricalIndex, if_pos hq]
      refine ⟨by simp, by simpa using hu0, ?_⟩
      simpa using hq
    · simp only [categoricalIndex, if_neg hq]
      have hq0 : 0 ≤ q := hpos q (by simp)
      have h1 : 0 ≤ u - q := by linarith [not_lt.mp hq]
      have h2 : u - q < rest.sum := by
        simp only [List.sum_cons] at hus
        linarith
      obtain ⟨ha, hb, hc⟩ :=
        ih (u - q) (fun x hx => hpos x (List.mem_cons_of_mem q hx)) h1 h2
      refine ⟨by simpa using ha, ?_, ?_⟩
      · simp only [List.take_succ_cons, List.sum_cons]
        linarith
      · simp only [List.take_succ_cons, List.sum_cons]
        linarith

/-- Claim C2: for positive construction dimensions, each padded dimension is the
smallest multiple of `total_scaling = 64` that is at least the original, and the
post-CNN spatial size is its exact quotient by `total_scaling`. -/
theorem padded_dims_spec (h w nd nc : Nat) (hh : 1 ≤ h) (hw : 1 ≤ w) :
    (initVAE h w nd nc).padded_height % total_scaling = 0 ∧
    (initVAE h w nd nc).padded_height - total_scaling < h ∧
    h ≤ (initVAE h w nd nc).padded_height ∧
    (initVAE h w nd nc).post_cnn_height * total_scaling = (initVAE h w nd nc).padded_height ∧
    (initVAE h w nd nc).padded_width % total_scaling = 0 ∧
    (initVAE h w nd nc).padded_width - total_scaling < w ∧
    w ≤ (initVAE h w nd nc).padded_width ∧
    (initVAE h w nd nc).post_cnn_width * total_scaling = (initVAE h w nd nc).padded_width := by
  simp only [initVAE, total_scaling_eq]
  omega

/-- Claim C2 witness at `h = 100`, `w = 130`. -/
theorem padded_dims_spec_witness :
    (initVAE 100 130 4 8).padded_height % total_scaling = 0 ∧
    (initVAE 100 130 4 8).padded_height - total_scaling < 100 ∧
    100 ≤ (initVAE 100 130 4 8).padded_height ∧
    (initVAE 100 130 4 8).post_cnn_height * total_scaling = (initVAE 100 130 4 8).padded_height ∧
    (initVAE 100 130 4 8).padded_width % total_scaling = 0 ∧
    (initVAE 100 130 4 8).padded_width - total_scaling < 130 ∧
    130 ≤ (initVAE 100 130 4 8).padded_width ∧
    (initVAE 100 130 4 8).post_cnn_width * total_scaling = (initVAE 100 130 4 8).padded_width :=
  padded_dims_spec 100 130 4 8 (by decide) (by decide)

/-- Claim C4: the pad amounts split the total pad as floor and complement:
`pad_top = (padded_height - h) / 2`, `pad_bottom` the remainder, and the two
sum to the total pad; likewise for width. -/
theorem pad_split_spec (h w nd nc : Nat) (hh : 1 ≤ h) (hw : 1 ≤ w) :
    (initVAE h w nd nc).pad_top = ((initVAE h w nd nc).padded_height - h) / 2 ∧
    (initVAE h w nd nc).pad_bottom =
      ((initVAE h w nd nc).padded_height - h) - (initVAE h w nd nc).pad_top ∧
    (initVAE h w nd nc).pad_top + (initVAE h w nd nc).pad_bottom =
      (initVAE h w nd nc).padded_height - h ∧
    (initVAE h w nd nc).pad_left = ((initVAE h w nd nc).padded_width - w) / 2 ∧
    (initVAE h w nd nc).pad_right =
      ((initVAE h w nd nc).padded_width - w) - (initVAE h w nd nc).pad_left ∧
    (initVAE h w nd nc).pad_left + (initVAE h w nd nc).pad_right =
      (initVAE h w nd nc).padded_width - w := by
  simp only [initVAE, total_scaling_eq, true_and, and_true]
  omega

/-- Claim C4 witness at `h = 100`, `w = 130`. -/
theorem pad_split_spec_witness :
    (initVAE 100 130 4 8).pad_top = ((initVAE 100 130 4 8).padded_height - 100) / 2 ∧
    (initVAE 100 130 4 8).pad_bottom =
      ((initVAE 100 130 4 8).padded_height - 100) - (initVAE 100 130 4 8).pad_top ∧
    (initVAE 100 130 4 8).pad_top + (initVAE 100 130 4 8).pad_bottom =
      (initVAE 100 130 4 8).padded_height - 100 ∧
    (initVAE 100 130 4 8).pad_left = ((initVAE 100 130 4 8).padded_width - 130) / 2 ∧
    (initVAE 100 130 4 8).pad_right =
      ((initVAE 100 130 4 8).padded_width - 130) - (initVAE 100 130 4 8).pad_left ∧
    (initVAE 100 130 4 8).pad_left + (initVAE 100 130 4 8).pad_right =
      (initVAE 100 130 4 8).padded_width - 130 :=
  pad_split_spec 100 130 4 8 (by decide) (by decide)

/-- Claim C3: unpadding after padding recovers any rank-4 input exactly, and
when both image dimensions are already multiples of `total_scaling` (so all pads
are zero) `pad_input` and `unpad_output` are each the identity. -/
theorem pad_unpad_roundtrip_spec (h w nd nc : Nat) (x : Tensor4) :
    unpad_output (initVAE h w nd nc) (pad_input (initVAE h w nd nc) x) = x ∧
    (total_scaling ∣ h → total_scaling ∣ w →
      pad_input (initVAE h w nd nc) x = x ∧
        unpad_output (initVAE h w nd nc) x = x) := by
  constructor
  · unfold pad_input unpad_output
    simp only [List.map_map]
    simp [Function.comp_def, unpad_pad_grid]
  · intro hdh hdw
    obtain ⟨h1, h2, h3, h4⟩ :
        (initVAE h w nd nc).pad_top = 0 ∧ (initVAE h w nd nc).pad_bottom = 0 ∧
          (initVAE h w nd nc).pad_left = 0 ∧ (initVAE h w nd nc).pad_right = 0 := by
      simp only [initVAE, total_scaling_eq] at hdh hdw ⊢
      omega
    constructor
    · unfold pad_input padGrid padRow
      rw [h1, h2, h3, h4]
      simp
    · unfold unpad_output unpadAxis
      rw [h1, h2, h3, h4]
      simp

/-- Claim C3 witness: at `h = w = 128` (multiples of 64) both maps are the
identity on a concrete tensor, and the round trip holds. -/
theorem pad_unpad_roundtrip_spec_witness :
    unpad_output (initVAE 128 128 4 8)
        (pad_input (initVAE 128 128 4 8) [[[[5]]]]) = [[[[5]]]] ∧
    pad_input (initVAE 128 128 4 8) [[[[5]]]] = [[[[5]]]] ∧
    unpad_output (initVAE 128 128 4 8) [[[[5]]]] = [[[[5]]]] := by
  refine ⟨(pad_unpad_roundtrip_spec 128 128 4 8 [[[[5]]]]).1, ?_, ?_⟩
  · exact ((pad_unpad_roundtrip_spec 128 128 4 8 [[[[5]]]]).2 (by decide) (by decide)).1
  · exact ((pad_unpad_roundtrip_spec 128 128 4 8 [[[[5]]]]).2 (by decide) (by decide)).2

/-- Claim C9: the floor half of each pad never exceeds the complement half, a
positive total pad forces a positive high-side pad, and therefore the fallback
one-sided slices (`x[:, :, pad_top:]`, `x[:, :, :, pad_left:]`) in
`unpad_output` are unreachable: on any constructed model `unpadAxis` always
takes the two-sided slice whenever it slices at all. -/
theorem pad_fallback_unreachable_spec (h w nd nc : Nat) :
    (initVAE h w nd nc).pad_top ≤ (initVAE h w nd nc).pad_bottom ∧
    (initVAE h w nd nc).pad_left ≤ (initVAE h w nd nc).pad_right ∧
    (0 < (initVAE h w nd nc).pad_height → 0 < (initVAE h w nd nc).pad_bottom) ∧
    (0 < (initVAE h w nd nc).pad_width → 0 < (initVAE h w nd nc).pad_right) ∧
    (∀ xs : List (List ℝ),
      unpadAxis (initVAE h w nd nc).pad_top (initVAE h w nd nc).pad_bottom xs =
        if 0 < (initVAE h w nd nc).pad_top + (initVAE h w nd nc).pad_bottom then
          sliceLowHigh (initVAE h w nd nc).pad_top (initVAE h w nd nc).pad_bottom xs
        else xs) ∧
    (∀ xs : List ℝ,
      unpadAxis (initVAE h w nd nc).pad_left (initVAE h w nd nc).pad_right xs =
        if 0 < (initVAE h w nd nc).pad_left + (initVAE h w nd nc).pad_right then
          sliceLowHigh (initVAE h w nd nc).pad_left (initVAE h w nd nc).pad_right xs
        else xs) := by
  refine ⟨?_, ?_, ?_, ?_, ?_, ?_⟩
  · simp only [initVAE, total_scaling_eq]; omega
  · simp only [initVAE, total_scaling_eq]; omega
  · simp only [initVAE, total_scaling_eq]; omega
  · simp only [initVAE, total_scaling_eq]; omega
  · exact unpadAxis_eq_slice _ _ (by simp only [initVAE, total_scaling_eq]; omega)
  · exact unpadAxis_eq_slice _ _ (by simp only [initVAE, total_scaling_eq]; omega)

/-- Claim C9 witness: at `h = 100`, `w = 130` the positive total pads yield
positive high-side pads, via the theorem's implications. -/
theorem pad_fallback_unreachable_spec_witness :
    0 < (initVAE 100 130 4 8).pad_bottom ∧ 0 < (initVAE 100 130 4 8).pad_right :=
  ⟨(pad_fallback_unreachable_spec 100 130 4 8).2.2.1 (by decide),
   (pad_fallback_unreachable_spec 100 130 4 8).2.2.2.1 (by decide)⟩

/-- Claim C1: for every logits matrix whose rows have `n_categories` entries
(`n_categories ≥ 1`), every row of the smoothed distribution
`0.99 * softmax(logits) + 0.01 / n_categories` sums to 1 and every entry is at
least `0.01 / n_categories`. -/
theorem encode_distribution_rows_spec (nc : Nat) (logits : List (List ℝ))
    (hnc : 1 ≤ nc) (hlen : ∀ r ∈ logits, r.length = nc) :
    ∀ r ∈ encodeDistributions nc logits,
      r.sum = 1 ∧ ∀ p ∈ r, 0.01 / (nc : ℝ) ≤ p := by
  intro r hr
  unfold encodeDistributions smoothDistributions softmax_act at hr
  rw [List.map_map] at hr
  obtain ⟨l, hl, rfl⟩ := List.mem_map.mp hr
  have hlnil : l ≠ [] := by
    intro h0
    have hzero := hlen l hl
    rw [h0] at hzero
    simp only [List.length_nil] at hzero
    omega
  have hnc0 : (nc : ℝ) ≠ 0 := by
    have : (0:ℝ) < nc := by exact_mod_cast hnc
    linarith
  simp only [Function.comp_apply]
  constructor
  · have haff : ∀ x : ℝ, 0.99 * x + 0.01 * 1 / (nc : ℝ)
        = 0.99 * x + 0.01 * 1 / (nc : ℝ) := fun _ => rfl
    rw [show (fun p => 0.99 * p + 0.01 * 1 / (nc : ℝ))
        = fun p => 0.99 * p + 0.01 * 1 / (nc : ℝ) from rfl]
    rw [show (0.01 : ℝ) * 1 / (nc : ℝ) = 0.01 * (1 / (nc : ℝ)) by ring] at *
    rw [sum_map_affine, softmaxRow_sum l hlnil]
    have hlen2 : ((softmaxRow l).length : ℝ) = (nc : ℝ) := by
      simp [softmaxRow, hlen l hl]
    rw [hlen2]
    field_simp
    ring
  · intro p hp
    obtain ⟨q, hq, rfl⟩ := List.mem_map.mp hp
    have h0 : 0 ≤ q := (softmaxRow_bounds l hlnil q hq).1
    have hncpos : (0:ℝ) < nc := by exact_mod_cast hnc
    have h99 : (0:ℝ) ≤ 0.99 * q := by positivity
    have : (0.01:ℝ) / nc = 0.01 * 1 / nc := by ring
    linarith

/-- Claim C1 witness at `n_categories = 2`, logits `[[0, 0]]`: the first (only)
smoothed row sums to 1 and its first entry is at least `0.01 / 2`. -/
theorem encode_distribution_rows_spec_witness :
    (encodeDistributions 2 [[(0:ℝ), 0]]).headI.sum = 1 ∧
    0.01 / ((2 : Nat) : ℝ) ≤ (encodeDistributions 2 [[(0:ℝ), 0]]).headI.headI := by
  have h := encode_distribution_rows_spec 2 [[(0:ℝ), 0]] (by norm_num)
    (by
      intro r hr
      rw [List.mem_singleton] at hr
      subst hr
      rfl)
  obtain ⟨h1, h2⟩ := h (encodeDistributions 2 [[(0:ℝ), 0]]).headI
    (List.mem_cons_self _ _)
  exact ⟨h1, h2 _ (List.mem_cons_self _ _)⟩

/-- Claim C10: every entry of the smoothed distribution is at most
`0.99 + 0.01 / n_categories`; for `n_categories ≥ 2` every entry is strictly
below 1, so the smoothed distribution is never an exact one-hot vector. -/
theorem encode_distribution_upper_bound_spec (nc : Nat) (logits : List (List ℝ))
    (hnc : 1 ≤ nc) (hlen : ∀ r ∈ logits, r.length = nc) :
    ∀ r ∈ encodeDistributions nc logits, ∀ p ∈ r,
      p ≤ 0.99 + 0.01 / (nc : ℝ) ∧ (2 ≤ nc → p < 1) := by
  intro r hr p hp
  unfold encodeDistributions smoothDistributions softmax_act at hr
  rw [List.map_map] at hr
  obtain ⟨l, hl, rfl⟩ := List.mem_map.mp hr
  have hlnil : l ≠ [] := by
    intro h0
    have hzero := hlen l hl
    rw [h0] at hzero
    simp only [List.length_nil] at hzero
    omega
  simp only [Function.comp_apply] at hp
  obtain ⟨q, hq, rfl⟩ := List.mem_map.mp hp
  have hncpos : (0:ℝ) < nc := by
    have : (0:ℝ) < (1:Nat) := by norm_num
    exact_mod_cast Nat.lt_of_lt_of_le (by norm_num) hnc
  have hq1 : q ≤ 1 := (softmaxRow_bounds l hlnil q hq).2
  have hub : 0.99 * q + 0.01 * 1 / (nc : ℝ) ≤ 0.99 + 0.01 / (nc : ℝ) := by
    have : (0.01:ℝ) * 1 / nc = 0.01 / nc := by ring
    linarith
  refine ⟨hub, fun h2 => ?_⟩
  have h2r : (2:ℝ) ≤ nc := by exact_mod_cast h2
  have hsmall : (0.01:ℝ) / nc ≤ 0.005 := by
    rw [div_le_iff₀ hncpos]
    nlinarith
  linarith

/-- Claim C10 witness at `n_categories = 2`, logits `[[0, 0]]`: the first entry
of the first smoothed row is at most `0.99 + 0.01 / 2` and strictly below 1. -/
theorem encode_distribution_upper_bound_spec_witness :
    (encodeDistributions 2 [[(0:ℝ), 0]]).headI.headI ≤ 0.99 + 0.01 / ((2 : Nat) : ℝ) ∧
    (encodeDistributions 2 [[(0:ℝ), 0]]).headI.headI < 1 := by
  have h := encode_distribution_upper_bound_spec 2 [[(0:ℝ), 0]] (by norm_num)
    (by
      intro r hr
      rw [List.mem_singleton] at hr
      subst hr
      rfl)
  obtain ⟨h1, h2⟩ := h (encodeDistributions 2 [[(0:ℝ), 0]]).headI
    (List.mem_cons_self _ _) (encodeDistributions 2 [[(0:ℝ), 0]]).headI.headI
    (List.mem_cons_self _ _)
  exact ⟨h1, h2 (by norm_num)⟩

/-- Claim C6 (spec-modelled sampler): on any probability row with non-negative
entries and a uniform draw `u` in `[0, sum)`, the sampled row is exactly
one-hot -- its length equals the row's, the entry at the drawn index `k` is 1
and all other entries are 0 -- and `k` is drawn proportionally to the row:
`u` falls in the half-open cumulative-probability interval of index `k`. -/
theorem sampler_one_hot_spec (u : ℝ) (p : List ℝ)
    (hpos : ∀ q ∈ p, 0 ≤ q) (hu0 : 0 ≤ u) (hus : u < p.sum) :
    ∃ k, k < p.length ∧
      categoricalIndex u p = k ∧
      (p.take k).sum ≤ u ∧ u < (p.take (k + 1)).sum ∧
      (STMNsamplerRow u p).length = p.length ∧
      ∀ j, j < p.length →
        (STMNsamplerRow u p).getD j 0 = if j = k then 1 else 0 := by
  obtain ⟨hk, hlo, hhi⟩ := categoricalIndex_mem_interval p u hpos hu0 hus
  refine ⟨categoricalIndex u p, hk, rfl, hlo, hhi, oneHot_length _ _, ?_⟩
  intro j hj
  exact oneHot_getD p.length (categoricalIndex u p) j hj

/-- Claim C6 witness: row `[1/4, 1/2, 1/4]` with draw `u = 1/2`. -/
theorem sampler_one_hot_spec_witness :
    ∃ k, k < ([(1:ℝ)/4, 1/2, 1/4]).length ∧
      categoricalIndex (1/2) [(1:ℝ)/4, 1/2, 1/4] = k ∧
      (([(1:ℝ)/4, 1/2, 1/4]).take k).sum ≤ 1/2 ∧
      (1:ℝ)/2 < (([(1:ℝ)/4, 1/2, 1/4]).take (k + 1)).sum ∧
      (STMNsamplerRow (1/2) [(1:ℝ)/4, 1/2, 1/4]).length = ([(1:ℝ)/4, 1/2, 1/4]).length ∧
      ∀ j, j < ([(1:ℝ)/4, 1/2, 1/4]).length →
        (STMNsamplerRow (1/2) [(1:ℝ)/4, 1/2, 1/4]).getD j 0 = if j = k then 1 else 0 :=
  sampler_one_hot_spec (1/2) [(1:ℝ)/4, 1/2, 1/4]
    (by
      intro q hq
      simp only [List.mem_cons, List.not_mem_nil, or_false] at hq
      rcases hq with rfl | rfl | rfl <;> norm_num)
    (by norm_num)
    (by norm_num)

/-- Claim C5: under the black-box shape contracts of the convolution,
transpose-convolution and MLP stages, `decode (encode image sample)` has
exactly the input shape `(batch, 1, h, w)`, and the sample and distribution
have shape `(batch, n_distributions * n_categories)`. -/
theorem forward_shape_spec (h w nd nc b : Nat) (hh : 1 ≤ h) (hw : 1 ≤ w) :
    forwardShape (initVAE h w nd nc) ⟨b, 1, h, w⟩ =
      (⟨b, 1, h, w⟩, (b, nd * nc), (b, nd * nc)) := by
  simp only [forwardShape, encodeShape, decodeShape, decoderShape, unpad_outputShape,
    deCNNLayerShape, unflattenShape, mlpShape, viewShape, samplerShape, encoderShape,
    pad_inputShape, flattenShape, maxPool2dShape, cnnLayerShape, initVAE,
    total_scaling_eq, Prod.mk.injEq, Shape4.mk.injEq, true_and, and_true]
  omega

/-- Claim C5 witness at `h = 50`, `w = 70`, `nd = 2`, `nc = 3`, batch 5. -/
theorem forward_shape_spec_witness :
    forwardShape (initVAE 50 70 2 3) ⟨5, 1, 50, 70⟩ =
      (⟨5, 1, 50, 70⟩, (5, 2 * 3), (5, 2 * 3)) :=
  forward_shape_spec 50 70 2 3 5 (by decide) (by decide)

/-- Claim C7: the end-to-end example. Constructing with `image_height = 100`,
`image_width = 130`, `n_distributions = 4`, `n_categories = 8` yields
`padded_height = 128`, `padded_width = 192`, `pad_top = pad_bottom = 14`,
`pad_left = pad_right = 31`, `post_cnn_height = 2`, `post_cnn_width = 3`; and
`forward` on a `(2, 1, 100, 130)` image returns a `(2, 1, 100, 130)`
reconstruction and `(2, 32)` sample and distribution. -/
theorem concrete_construction_spec :
    (initVAE 100 130 4 8).padded_height = 128 ∧
    (initVAE 100 130 4 8).padded_width = 192 ∧
    (initVAE 100 130 4 8).pad_top = 14 ∧
    (initVAE 100 130 4 8).pad_bottom = 14 ∧
    (initVAE 100 130 4 8).pad_left = 31 ∧
    (initVAE 100 130 4 8).pad_right = 31 ∧
    (initVAE 100 130 4 8).post_cnn_height = 2 ∧
    (initVAE 100 130 4 8).post_cnn_width = 3 ∧
    forwardShape (initVAE 100 130 4 8) ⟨2, 1, 100, 130⟩ =
      (⟨2, 1, 100, 130⟩, (2, 32), (2, 32)) := by
  decide

/-- Claim C8: the shape plan and latent configuration are never modified after
construction: every method in state-passing form returns the model record
unchanged, for any model value, inputs and black-box sub-networks. -/
theorem shape_plan_immutable_spec (m : VAE) (x : Tensor4) (z : List (List ℝ))
    (encoderNet : Tensor4 → List (List ℝ)) (decoderNet : List (List ℝ) → Tensor4)
    (samplerNoise : List ℝ) :
    (pad_inputM m x).2 = m ∧
    (unpad_outputM m x).2 = m ∧
    (encodeM m encoderNet samplerNoise x).2 = m ∧
    (decodeM m decoderNet z).2 = m ∧
    (forwardM m encoderNet samplerNoise decoderNet x).2 = m :=
  ⟨rfl, rfl, rfl, rfl, rfl⟩

end BrainSimulator
